import Mathlib

/-!
# tor-dam: the directory's announce handler, the node's seed fan-out and its onion address

A shallow embedding of

* `src/go/ddir/ddir.go`        (`handlePost`, the handler of `/announce`),
* `src/pkg/damlib/config.go`   (the protocol constants),
* `src/cmd/tor-dam/tor-dam.go` (`main`: the onion address and the announce fan-out).

The package `lib` that `ddir.go` imports (`ValidateReq`, `ParsePubkey`,
`GenRandomASCII`, `EncryptMsg`, `CheckError`) and the package `tordam` that
`tor-dam.go` imports (`Announce`) are not among the sources; their functions
are parameters of the embedding.
-/

namespace TorDam

/-! ## Values -/

/-- A Go `[]byte`, and a Go `string` that carries data: a finite sequence of bytes. -/
abbrev Bytes := List UInt8

/-! ## `pkg/damlib/config.go` -/

/-- RsaBits holds the size of our RSA private key. -/
def RsaBits : Nat := 1024

/-- PostMsg holds the message we are signing with our private key. -/
def PostMsg : String := "I am a DAM node!"

/-- WelcomeMsg holds the message we return when welcoming a node. -/
def WelcomeMsg : String := "Welcome to the DAM network!"

/-- DirPort is the port where dam-dir will be listening. -/
def DirPort : Nat := 49371

/-! ## `encoding/base64`, `StdEncoding.EncodeToString` -/

/-- The byte of the standard base64 alphabet (`A-Z a-z 0-9 + /`) for a six-bit value. -/
def encodeStd (v : Nat) : UInt8 :=
  if v < 26 then UInt8.ofNat (65 + v)
  else if v < 52 then UInt8.ofNat (97 + (v - 26))
  else if v < 62 then UInt8.ofNat (48 + (v - 52))
  else if v = 62 then 43
  else 47

/-- The padding byte `=` of `StdEncoding`. -/
def StdPadding : UInt8 := 61

/-- `base64.StdEncoding.EncodeToString`: three bytes become four alphabet bytes,
a last group of one or two bytes is padded with `=`. -/
def EncodeToString : Bytes → Bytes
  | [] => []
  | [a] =>
    [encodeStd (a.toNat / 4), encodeStd (a.toNat % 4 * 16), StdPadding, StdPadding]
  | [a, b] =>
    [encodeStd (a.toNat / 4), encodeStd (a.toNat % 4 * 16 + b.toNat / 16),
     encodeStd (b.toNat % 16 * 4), StdPadding]
  | a :: b :: c :: rest =>
    encodeStd (a.toNat / 4) :: encodeStd (a.toNat % 4 * 16 + b.toNat / 16) ::
      encodeStd (b.toNat % 16 * 4 + c.toNat / 64) :: encodeStd (c.toNat % 64) ::
      EncodeToString rest

/-! ## `unicode/utf8` and the strings of `encoding/json` -/

/-- Whether `b` is a UTF-8 continuation byte, `0x80` to `0xBF`. -/
def isCont (b : UInt8) : Bool := 0x80 ≤ b && b ≤ 0xBF

/-- Whether `b1` may follow the first byte `b0` of an encoding of three or four
bytes: the accept ranges of `unicode/utf8`. -/
def acceptSecond (b0 b1 : UInt8) : Bool :=
  if b0 = 0xE0 then 0xA0 ≤ b1 && b1 ≤ 0xBF
  else if b0 = 0xED then 0x80 ≤ b1 && b1 ≤ 0x9F
  else if b0 = 0xF0 then 0x90 ≤ b1 && b1 ≤ 0xBF
  else if b0 = 0xF4 then 0x80 ≤ b1 && b1 ≤ 0x8F
  else isCont b1

/-- The width `utf8.DecodeRune(p)` reports when `p` starts with a valid encoding
(1 to 4), and 0 when it reports `RuneError` (an empty `p`, or an invalid first byte,
which the callers skip as one byte). -/
def runeSize : Bytes → Nat
  | [] => 0
  | b0 :: rest =>
    if b0 < 0x80 then 1
    else if b0 < 0xC2 then 0
    else if b0 < 0xE0 then
      match rest with
      | b1 :: _ => if isCont b1 then 2 else 0
      | _ => 0
    else if b0 < 0xF0 then
      match rest with
      | b1 :: b2 :: _ => if acceptSecond b0 b1 && isCont b2 then 3 else 0
      | _ => 0
    else if b0 < 0xF5 then
      match rest with
      | b1 :: b2 :: b3 :: _ =>
        if acceptSecond b0 b1 && isCont b2 && isCont b3 then 4 else 0
      | _ => 0
    else 0

/-- The scan of `json.Marshal` over a Go string, `skip` bytes of a valid encoding
still to copy: a valid encoding is kept, and each byte that starts none becomes
U+FFFD (`EF BF BD`). -/
def coerceUTF8 : Nat → Bytes → Bytes
  | _, [] => []
  | skip + 1, b :: rest => b :: coerceUTF8 skip rest
  | 0, b :: rest =>
    match runeSize (b :: rest) with
    | 0 => 0xEF :: 0xBF :: 0xBD :: coerceUTF8 0 rest
    | n + 1 => b :: coerceUTF8 n rest

/-- The value of a string field of a JSON body written by `json.Marshal`, as the
reader of the body decodes it: the Go string `s` with every byte that is not part
of a valid UTF-8 encoding replaced by U+FFFD. The escapes of the encoder (quotes,
control characters, `<`, `>`, `&`) decode back to the bytes they stand for. -/
def marshalledString (s : Bytes) : Bytes := coerceUTF8 0 s

/-- The scan of `utf8.Valid`, `skip` bytes of a valid encoding still to pass. -/
def validFrom : Nat → Bytes → Bool
  | _, [] => true
  | skip + 1, _ :: rest => validFrom skip rest
  | 0, b :: rest =>
    match runeSize (b :: rest) with
    | 0 => false
    | n + 1 => validFrom n rest

/-- The Go function `utf8.Valid(p)`: whether `p` is valid UTF-8 throughout. -/
def Valid (p : Bytes) : Bool := validFrom 0 p

/-! ## `go/ddir/ddir.go` -/

/-- ListenAddress of the directory. -/
def ListenAddress : String := "127.0.0.1:8080"

/-- The JSON object a node posts to `/announce`. -/
structure nodeStruct where
  Nodetype : Bytes
  Address : Bytes
  Message : Bytes
  Signature : Bytes
  Secret : Bytes
  deriving DecidableEq, Repr

/-- The map `req` that `handlePost` builds and hands to `lib.ValidateReq`,
one field for each of its five keys. -/
structure Req where
  nodetype : Bytes
  address : Bytes
  message : Bytes
  signature : Bytes
  secret : Bytes
  deriving DecidableEq, Repr

/-- What `handlePost` calls and does not define: the two standard-library decoders
and the functions of package `lib`. A Go `error` is its message; a `[]byte` that
may be `nil` is an `Option`. `GenRandomASCII` stands for one draw of the random
source. -/
structure Env (PubKey : Type) where
  /-- The body read by `json.NewDecoder(request.Body).Decode(&n)`. -/
  jsonDecode : Bytes → Except String nodeStruct
  /-- The standard-library `base64.StdEncoding.DecodeString`. -/
  DecodeString : Bytes → Except String Bytes
  /-- The validator `lib.ValidateReq(req)`, returning `(pkey, valid)`. -/
  ValidateReq : Req → Option Bytes × Bool
  /-- The key parser `lib.ParsePubkey(pkey)`. -/
  ParsePubkey : Option Bytes → Except String PubKey
  /-- The generator `lib.GenRandomASCII(n)`. -/
  GenRandomASCII : Nat → Except String Bytes
  /-- The encryption `lib.EncryptMsg(msg, pubkey)`. -/
  EncryptMsg : Bytes → PubKey → Except String Bytes

/-- How one run of `handlePost` ends. -/
inductive Outcome where
  /-- At source line `line`, `lib.CheckError` received the non-nil error `err`.
  `CheckError` is not among the sources: on a nil error it is taken to return, and
  on a non-nil error the embedding follows the handler up to this call and no
  further. -/
  | checkError (line : Nat) (err : String)
  /-- The call `log.Fatalln(msg)`: the message is logged and the process exits. -/
  | fatal (msg : String)
  /-- The handler set `Content-Type`, wrote the status code and wrote the body
  `json.Marshal(ret)`, then returned; `secret` is the value of the field `secret`
  of that body. -/
  | response (status : Nat) (contentType : String) (secret : Bytes)
  /-- The handler returned without setting a header or writing anything. -/
  | returned
  deriving DecidableEq, Repr

/-- One run of `handlePost`: the challenge plaintext `GenRandomASCII` produced in it,
if the run called it with success, and how the run ended. -/
structure Result where
  generated : Option Bytes
  outcome : Outcome
  deriving DecidableEq, Repr

/-- The handler `handlePost(rw, request)` of `ddir.go`, on the request body `body`.
The log line of the signature (line 32) has no part in the result and is left out. -/
def handlePost {PubKey : Type} (env : Env PubKey) (body : Bytes) : Result :=
  match env.jsonDecode body with
  | .error err => ⟨none, .checkError 30 err⟩
  | .ok n =>
    match env.DecodeString n.Signature with
    | .error err => ⟨none, .checkError 34 err⟩
    | .ok decSig =>
      let req : Req :=
        { nodetype := n.Nodetype, address := n.Address, message := n.Message,
          signature := decSig, secret := n.Secret }
      match env.ValidateReq req with
      | (none, false) => ⟨none, .fatal "Request is not valid."⟩
      | (some pkey, false) =>
        ⟨none, .response 500 "application/json" (marshalledString pkey)⟩
      | (pkey, true) =>
        match env.ParsePubkey pkey with
        | .error err => ⟨none, .checkError 61 err⟩
        | .ok pubkey =>
          if req.secret.length ≠ 64 then
            match env.GenRandomASCII 64 with
            | .error err => ⟨none, .checkError 65 err⟩
            | .ok randString =>
              match env.EncryptMsg randString pubkey with
              | .error err => ⟨some randString, .checkError 68 err⟩
              | .ok secret =>
                ⟨some randString, .response 200 "application/json" (marshalledString secret)⟩
          else ⟨none, .returned⟩

/-- Whether the process is still serving after a run that ended in `o`: `log.Fatalln`
exits it, and past a failed `CheckError` the embedding does not follow it. -/
def Outcome.serving : Outcome → Bool
  | .response _ _ _ => true
  | .returned => true
  | .fatal _ => false
  | .checkError _ _ => false

/-- The directory's `main` registers `handlePost` for `/announce` and serves: the
results of the requests `bodies`, handled one after the other, up to and including
the first run after which the process no longer serves. -/
def serve {PubKey : Type} (env : Env PubKey) : List Bytes → List Result
  | [] => []
  | body :: rest =>
    let r := handlePost env body
    r :: (if r.outcome.serving then serve env rest else [])

/-! ## `cmd/tor-dam/tor-dam.go`: the onion address

The hostname file and the flags are text; a Go `string` is a Lean `String` here. -/

/-- The Go function `strings.TrimSuffix(s, suffix)`: `s` without the trailing `suffix`, or `s`
itself when it does not end in `suffix`. -/
def TrimSuffix (s suffix : String) : String :=
  if suffix.data.isSuffixOf s.data then
    ⟨s.data.take (s.data.length - suffix.data.length)⟩
  else s

/-- The Go function `strings.Join(elems, sep)`. -/
def Join : List String → String → String
  | [], _ => ""
  | [a], _ => a
  | a :: b :: rest, sep => a ++ sep ++ Join (b :: rest) sep

/-- The Go conversion `string(n)` of an integer `n`: the text of the one code
point `n`, and of U+FFFD when `n` is not a valid code point. -/
def stringOfInt (n : Int) : String :=
  if 0 ≤ n ∧ n.toNat.isValidChar then String.singleton (Char.ofNat n.toNat)
  else String.singleton (Char.ofNat 0xFFFD)

/-- The value `main` gives `tordam.Onion` (lines 137 to 139), from the content
`onionaddr` of the hostname file and the port `port` of `tordam.Cfg.Listen`. -/
def Onion (onionaddr : String) (port : Int) : String :=
  let onionaddr := TrimSuffix onionaddr "\n"
  Join [onionaddr, stringOfInt port] ":"

/-! ## `cmd/tor-dam/tor-dam.go`: the announce fan-out

Lines 167 to 186 of `main`. The loop `for _, i := range strings.Split(*seeds, ",")`
has one variable `i` for all its iterations (the Go of this code, before 1.22), and
every goroutine it starts reads `i` and updates `succ` without synchronisation. The
embedding is a step function on the state these threads share; a schedule says which
thread takes the next step. -/

/-- Where a goroutine of the fan-out stands. -/
inductive Phase where
  /-- Started; `tordam.Announce(i)` not yet called. -/
  | started
  /-- The call of `Announce` returned nil; `succ++` not yet begun. -/
  | announced
  /-- The increment `succ++` has read the value `v` of `succ` and not yet written. -/
  | loaded (v : Nat)
  /-- Past `wg.Done()`. -/
  | done
  deriving DecidableEq, Repr

/-- A goroutine `go func(x string) {...}(i)`: its argument `x` and where it stands. -/
structure Goroutine where
  x : String
  phase : Phase
  deriving DecidableEq, Repr

/-- How `main` ends. -/
inductive Verdict where
  /-- The call `log.Fatal(msg)`. -/
  | fatal (msg : String)
  /-- The call `log.Printf("Successfully announced to %d peers.", succ)`. -/
  | announcedTo (succ : Nat)
  deriving DecidableEq, Repr

/-- The state of the fan-out. -/
structure FanOut where
  /-- The seeds the `range` loop has not reached yet. -/
  pending : List String
  /-- The loop variable `i`. -/
  i : String
  /-- The counter `succ`, a Go `int`; it never exceeds the number of seeds. -/
  succ : Nat
  /-- The goroutines started so far, in the order of their start. -/
  goroutines : List Goroutine
  /-- The counter of the wait group `wg`. -/
  wg : Nat
  /-- The calls of `tordam.Announce` so far: the calling goroutine and the argument. -/
  calls : List (Nat × String)
  /-- How `main` ended, once it has. -/
  verdict : Option Verdict
  deriving DecidableEq, Repr

/-- A thread of the fan-out: `main`, or the k-th goroutine it started. -/
inductive Thread where
  | main
  | go (k : Nat)
  deriving DecidableEq, Repr

/-- The state when `main` reaches line 168, the seeds being `seeds`. -/
def FanOut.init (seeds : List String) : FanOut :=
  { pending := seeds, i := "", succ := 0, goroutines := [], wg := 0, calls := [],
    verdict := none }

/-- One step of `main`: the next iteration of the loop (assign `i`, `wg.Add(1)`,
start the goroutine with argument `i`), or, the loop over, the return of `wg.Wait()`
followed by the test `succ < 1`. No step when `wg.Wait()` blocks or `main` ended. -/
def stepMain (s : FanOut) : Option FanOut :=
  match s.verdict with
  | some _ => none
  | none =>
    match s.pending with
    | seed :: rest =>
      some { s with pending := rest, i := seed, wg := s.wg + 1,
                    goroutines := s.goroutines ++ [⟨seed, .started⟩] }
    | [] =>
      if s.wg = 0 then
        if s.succ < 1 then some { s with verdict := some (.fatal "No successful announces.") }
        else some { s with verdict := some (.announcedTo s.succ) }
      else none

/-- One step of the k-th goroutine, `ok k` telling whether its call of `Announce`
returns nil: the call `tordam.Announce(i)` (and, on an error, the log line and
`wg.Done()`), the read of `succ`, or the write of `succ` and `wg.Done()`.
No step when the goroutine has not started or is done. -/
def stepGo (ok : Nat → Bool) (k : Nat) (s : FanOut) : Option FanOut :=
  match s.goroutines[k]? with
  | none => none
  | some g =>
    match g.phase with
    | .started =>
      if ok k then
        some { s with calls := s.calls ++ [(k, s.i)],
                      goroutines := s.goroutines.set k { g with phase := .announced } }
      else
        some { s with calls := s.calls ++ [(k, s.i)], wg := s.wg - 1,
                      goroutines := s.goroutines.set k { g with phase := .done } }
    | .announced =>
      some { s with goroutines := s.goroutines.set k { g with phase := .loaded s.succ } }
    | .loaded v =>
      some { s with succ := v + 1, wg := s.wg - 1,
                    goroutines := s.goroutines.set k { g with phase := .done } }
    | .done => none

/-- One step of thread `t`. -/
def step (ok : Nat → Bool) (t : Thread) (s : FanOut) : Option FanOut :=
  match t with
  | .main => stepMain s
  | .go k => stepGo ok k s

/-- The run of a schedule: each thread named takes its step if it has one. -/
def run (ok : Nat → Bool) (schedule : List Thread) (s : FanOut) : FanOut :=
  schedule.foldl (fun s t => (step ok t s).getD s) s

/-- The pieces of a text between the occurrences of the character `sep`. -/
def splitChars (sep : Char) : List Char → List (List Char)
  | [] => [[]]
  | c :: cs =>
    if c = sep then [] :: splitChars sep cs
    else
      match splitChars sep cs with
      | [] => [[c]]
      | w :: ws => (c :: w) :: ws

/-- The Go function `strings.Split(s, sep)` for a separator of one character, as
in `strings.Split(*seeds, ",")`. -/
def Split (s : String) (sep : Char) : List String :=
  (splitChars sep s.data).map String.mk

/-- Whether a goroutine is past `wg.Done()`. -/
def Phase.isDone : Phase → Bool
  | .done => true
  | _ => false

/-- Whether a goroutine has not called `Announce` yet. -/
def Phase.isStarted : Phase → Bool
  | .started => true
  | _ => false

/-- What holds of every state of the fan-out over `n` seeds: every seed is pending
or has its goroutine; `wg` counts the goroutines not yet done; every goroutine past
its start has called `Announce` once; a goroutine between the call and `wg.Done()`
got nil; `succ` is positive exactly when a goroutine that got nil is done, and
neither `succ` nor a value read from it exceeds the number of goroutines done;
`main` ends only after the loop, with `wg` at zero, on the test of `succ`. -/
structure Inv (ok : Nat → Bool) (n : Nat) (s : FanOut) : Prop where
  len : s.goroutines.length + s.pending.length = n
  wg_eq : s.wg = s.goroutines.countP (fun g => !g.phase.isDone)
  calls_eq : s.calls.length = s.goroutines.countP (fun g => !g.phase.isStarted)
  ok_of_mid : ∀ (k : Nat) (g : Goroutine), s.goroutines[k]? = some g →
    g.phase.isStarted = false → g.phase.isDone = false → ok k = true
  succ_pos : 1 ≤ s.succ ↔
    ∃ (k : Nat) (g : Goroutine), s.goroutines[k]? = some g ∧ g.phase.isDone = true ∧ ok k = true
  succ_le : s.succ ≤ s.goroutines.countP (fun g => g.phase.isDone)
  loaded_le : ∀ (k : Nat) (g : Goroutine) (v : Nat), s.goroutines[k]? = some g →
    g.phase = .loaded v →
    v ≤ s.goroutines.countP (fun g => g.phase.isDone)
  verdict_eq : ∀ v : Verdict, s.verdict = some v →
    s.pending = [] ∧ s.wg = 0 ∧
      v = if s.succ < 1 then .fatal "No successful announces." else .announcedTo s.succ

/-- What holds, besides `Inv`, of every state of the fan-out over `seeds`: the
goroutines were started with the seeds as arguments, in order; `i` is the seed of
the goroutine started last; a goroutine has called `Announce` once if it is past
its start and not at all before; the argument of the call of the k-th goroutine is
a seed at position k or later. -/
structure InvCalls (seeds : List String) (s : FanOut) : Prop where
  args : (s.goroutines.map fun g => g.x) ++ s.pending = seeds
  i_eq : ∀ m : Nat, s.goroutines.length = m + 1 → seeds[m]? = some s.i
  calls_nodup : (s.calls.map Prod.fst).Nodup
  calls_mem : ∀ k : Nat, k ∈ s.calls.map Prod.fst ↔
    ∃ g : Goroutine, s.goroutines[k]? = some g ∧ g.phase.isStarted = false
  calls_arg : ∀ (k : Nat) (a : String), (k, a) ∈ s.calls →
    ∃ j : Nat, k ≤ j ∧ seeds[j]? = some a

/-- The steps a goroutine in a phase has left, at most. -/
def Phase.weight : Phase → Nat
  | .started => 3
  | .announced => 2
  | .loaded _ => 1
  | .done => 0

/-- A bound on the steps the fan-out has left: four for a pending seed (the
iteration and the steps of its goroutine), those of the goroutines started, and
the last step of `main`. -/
def FanOut.measure (s : FanOut) : Nat :=
  4 * s.pending.length + (s.goroutines.map fun g => g.phase.weight).sum
    + (if s.verdict.isSome then 0 else 1)

/-- A schedule for two seeds: the first goroutine calls `Announce` and reads `succ`,
then the second is started, calls `Announce` and reads `succ`; then both write. -/
def lostUpdate : List Thread :=
  [.main, .go 0, .go 0, .main, .go 1, .go 1, .go 0, .go 1, .main]

/-- A schedule for two seeds: the loop runs to its end, then the first goroutine
runs to its end, then the second, then `main` passes `wg.Wait()`. -/
def loopFirst : List Thread :=
  [.main, .main, .go 0, .go 0, .go 0, .go 1, .go 1, .go 1, .main]

/-- The default of the flag `-s`. -/
def defaultSeed : String :=
  "p7qaewjgnvnaeihhyybmoofd5avh665kr3awoxlh5rt6ox743kjdr6qd.onion:49371"

/-- The default seed at the next port. -/
def secondSeed : String :=
  "p7qaewjgnvnaeihhyybmoofd5avh665kr3awoxlh5rt6ox743kjdr6qd.onion:49372"

/-- A value of the flag `-s` with two seeds. -/
def twoSeeds : String := defaultSeed ++ "," ++ secondSeed

/-- The fan-out of `main` for the flag value `seeds`, under a schedule. -/
def fanOut (ok : Nat → Bool) (seeds : String) (schedule : List Thread) : FanOut :=
  run ok schedule (FanOut.init (Split seeds ','))

deriving instance DecidableEq for Except

/-! ## A sample environment

A toy instance of `Env`, used to run the handler on concrete requests. -/

/-- The bytes of an ASCII literal. -/
def ascii (s : String) : Bytes := s.toList.map fun c => UInt8.ofNat c.toNat

/-- The request `ValidFirst` of `main_test.go`, with a short signature text. -/
def ValidFirst : nodeStruct :=
  { Nodetype := ascii "node", Address := ascii "22mobp7vrb7a4gt2.onion",
    Message := ascii "I am a DAM node!", Signature := ascii "c2ln", Secret := [] }

/-- The 64 bytes the sample generator draws. -/
def sampleChallenge : Bytes := List.replicate 64 65

/-- The sample key the validator resolves. -/
def sampleKey : Bytes := ascii "key"

/-- The sample diagnostic the validator gives when it cannot resolve a key. -/
def sampleDiagnostic : Bytes := ascii "Could not get a descriptor."

/-- The sample ciphertext of `msg`: twice as long as `msg`, so 128 bytes for a
challenge; for an ASCII `msg` its second half is not valid UTF-8. -/
def sampleEncrypt (msg : Bytes) : Bytes := msg.map (· + 1) ++ msg.map (· + 130)

/-- A sample payload that is not valid UTF-8. -/
def garbledDiagnostic : Bytes := [0xFF, 0x41]

/-- The sample bodies: a one-byte body `[k]` stands for the k-th sample request. -/
def sampleDecode : Bytes → Except String nodeStruct
  | [1] => .ok ValidFirst
  | [2] => .ok { ValidFirst with Nodetype := ascii "foobar" }
  | [3] => .ok { ValidFirst with Message := sampleChallenge, Secret := sampleChallenge }
  | [4] => .ok { ValidFirst with Secret := ascii "x" }
  | [5] => .ok { ValidFirst with Address := ascii "offline.onion" }
  | [6] => .ok { ValidFirst with Secret := List.replicate 64 66 }
  | [7] => .ok { ValidFirst with Message := EncodeToString sampleChallenge,
                                 Secret := EncodeToString sampleChallenge }
  | [8] => .ok { ValidFirst with Address := ascii "garbled.onion" }
  | _ => .error "unexpected end of JSON input"

/-- The sample environment: the validator accepts the node type `node` only, with no
payload for another node type, and cannot resolve the addresses `offline.onion` and
`garbled.onion`. -/
def sampleEnv : Env Bytes where
  jsonDecode := sampleDecode
  DecodeString := fun s =>
    if s = ascii "c2ln" then .ok (ascii "sig") else .error "illegal base64 data"
  ValidateReq := fun req =>
    if req.nodetype ≠ ascii "node" then (none, false)
    else if req.address = ascii "offline.onion" then (some sampleDiagnostic, false)
    else if req.address = ascii "garbled.onion" then (some garbledDiagnostic, false)
    else (some sampleKey, true)
  ParsePubkey := fun pkey =>
    match pkey with
    | some k => .ok k
    | none => .error "no key"
  GenRandomASCII := fun n => .ok (List.replicate n 65)
  EncryptMsg := fun msg _ => .ok (sampleEncrypt msg)

/-! ## Facts about the handler -/

theorem length_EncodeToString (bs : Bytes) :
    (EncodeToString bs).length = 4 * ((bs.length + 2) / 3) := by
  induction bs using EncodeToString.induct with
  | case1 => rfl
  | case2 a => simp [EncodeToString]
  | case3 a b => simp [EncodeToString]
  | case4 a b c rest ih =>
    simp only [EncodeToString, List.length_cons, ih]
    omega

theorem EncodeToString_ne_self (bs : Bytes) (h : bs ≠ []) : EncodeToString bs ≠ bs := by
  intro heq
  have hlen := length_EncodeToString bs
  rw [heq] at hlen
  have hpos : 0 < bs.length := List.length_pos.mpr h
  omega

theorem coerceUTF8_of_validFrom (skip : Nat) (p : Bytes) (h : validFrom skip p = true) :
    coerceUTF8 skip p = p := by
  induction p generalizing skip with
  | nil => cases skip <;> rfl
  | cons b rest ih =>
    cases skip with
    | succ k =>
      simp only [validFrom] at h
      simp only [coerceUTF8, ih k h]
    | zero =>
      simp only [validFrom] at h
      simp only [coerceUTF8]
      cases hsz : runeSize (b :: rest) with
      | zero => simp [hsz] at h
      | succ n =>
        simp only [hsz] at h
        simp only [ih n h]

theorem marshalledString_of_Valid (p : Bytes) (h : Valid p = true) : marshalledString p = p :=
  coerceUTF8_of_validFrom 0 p h

theorem coerceUTF8_of_ascii (p : Bytes) (h : ∀ x ∈ p, x < 0x80) : coerceUTF8 0 p = p := by
  induction p with
  | nil => rfl
  | cons b rest ih =>
    have hb : b < 0x80 := h b (List.mem_cons_self b rest)
    have hsz : runeSize (b :: rest) = 1 := by simp [runeSize, hb]
    simp only [coerceUTF8, hsz]
    rw [ih fun x hx => h x (List.mem_cons_of_mem b hx)]

theorem coerceUTF8_high (skip : Nat) (p : Bytes) (h : ∃ x ∈ p, ¬ x < 0x80) :
    ∃ x ∈ coerceUTF8 skip p, ¬ x < 0x80 := by
  induction p generalizing skip with
  | nil => simp at h
  | cons b rest ih =>
    by_cases hb : b < 0x80
    · have hrest : ∃ x ∈ rest, ¬ x < 0x80 := by
        obtain ⟨x, hx, hhigh⟩ := h
        rcases List.mem_cons.mp hx with rfl | hx
        · exact absurd hb hhigh
        · exact ⟨x, hx, hhigh⟩
      cases skip with
      | succ k =>
        obtain ⟨x, hx, hhigh⟩ := ih k hrest
        exact ⟨x, by simp only [coerceUTF8]; exact List.mem_cons_of_mem b hx, hhigh⟩
      | zero =>
        have hsz : runeSize (b :: rest) = 1 := by simp [runeSize, hb]
        obtain ⟨x, hx, hhigh⟩ := ih 0 hrest
        exact ⟨x, by simp only [coerceUTF8, hsz]; exact List.mem_cons_of_mem b hx, hhigh⟩
    · cases skip with
      | succ k => exact ⟨b, by simp only [coerceUTF8]; exact List.mem_cons_self _ _, hb⟩
      | zero =>
        cases hsz : runeSize (b :: rest) with
        | zero =>
          exact ⟨0xEF, by simp only [coerceUTF8, hsz]; exact List.mem_cons_self _ _, by decide⟩
        | succ n =>
          exact ⟨b, by simp only [coerceUTF8, hsz]; exact List.mem_cons_self _ _, hb⟩

theorem encodeStd_lt (v : Nat) : encodeStd v < 0x80 := by
  by_cases h : v < 62
  · interval_cases v <;> decide
  · unfold encodeStd
    have h1 : ¬ v < 26 := by omega
    have h2 : ¬ v < 52 := by omega
    simp only [h1, h2, h, if_false]
    split <;> decide

theorem EncodeToString_ascii (bs : Bytes) : ∀ x ∈ EncodeToString bs, x < 0x80 := by
  induction bs using EncodeToString.induct with
  | case1 => simp [EncodeToString]
  | case2 a =>
    intro x hx
    simp only [EncodeToString, List.mem_cons, List.mem_singleton, List.not_mem_nil,
      or_false] at hx
    rcases hx with rfl | rfl | rfl | rfl
    · exact encodeStd_lt _
    · exact encodeStd_lt _
    · decide
    · decide
  | case3 a b =>
    intro x hx
    simp only [EncodeToString, List.mem_cons, List.mem_singleton, List.not_mem_nil,
      or_false] at hx
    rcases hx with rfl | rfl | rfl | rfl
    · exact encodeStd_lt _
    · exact encodeStd_lt _
    · exact encodeStd_lt _
    · decide
  | case4 a b c rest ih =>
    intro x hx
    simp only [EncodeToString, List.mem_cons] at hx
    rcases hx with rfl | rfl | rfl | rfl | hx
    · exact encodeStd_lt _
    · exact encodeStd_lt _
    · exact encodeStd_lt _
    · exact encodeStd_lt _
    · exact ih x hx

theorem marshalledString_ne_EncodeToString (bs : Bytes) (h : bs ≠ []) :
    marshalledString bs ≠ EncodeToString bs := by
  intro heq
  by_cases hascii : ∀ x ∈ bs, x < 0x80
  · rw [marshalledString, coerceUTF8_of_ascii bs hascii] at heq
    exact EncodeToString_ne_self bs h heq.symm
  · push_neg at hascii
    obtain ⟨x, hx, hhigh⟩ := coerceUTF8_high 0 bs hascii
    rw [← marshalledString, heq] at hx
    exact hhigh (EncodeToString_ascii bs x hx)

theorem handlePost_accepted {PubKey : Type} (env : Env PubKey) (body : Bytes)
    (n : nodeStruct) (decSig : Bytes) (pkey : Option Bytes) (pubkey : PubKey)
    (hn : env.jsonDecode body = .ok n)
    (hs : env.DecodeString n.Signature = .ok decSig)
    (hv : env.ValidateReq ⟨n.Nodetype, n.Address, n.Message, decSig, n.Secret⟩ = (pkey, true))
    (hp : env.ParsePubkey pkey = .ok pubkey) :
    handlePost env body =
      if n.Secret.length ≠ 64 then
        match env.GenRandomASCII 64 with
        | .error err => ⟨none, .checkError 65 err⟩
        | .ok randString =>
          match env.EncryptMsg randString pubkey with
          | .error err => ⟨some randString, .checkError 68 err⟩
          | .ok secret =>
            ⟨some randString, .response 200 "application/json" (marshalledString secret)⟩
      else ⟨none, .returned⟩ := by
  simp only [handlePost, hn, hs, hv, hp]

theorem handlePost_returned {PubKey : Type} (env : Env PubKey) (body : Bytes)
    (n : nodeStruct) (decSig : Bytes) (pkey : Option Bytes) (pubkey : PubKey)
    (hn : env.jsonDecode body = .ok n)
    (hs : env.DecodeString n.Signature = .ok decSig)
    (hv : env.ValidateReq ⟨n.Nodetype, n.Address, n.Message, decSig, n.Secret⟩ = (pkey, true))
    (hp : env.ParsePubkey pkey = .ok pubkey)
    (hlen : n.Secret.length = 64) :
    handlePost env body = ⟨none, .returned⟩ := by
  rw [handlePost_accepted env body n decSig pkey pubkey hn hs hv hp]
  simp [hlen]

theorem handlePost_challenge {PubKey : Type} (env : Env PubKey) (body : Bytes)
    (n : nodeStruct) (decSig : Bytes) (pkey : Option Bytes) (pubkey : PubKey)
    (randString ciphertext : Bytes)
    (hn : env.jsonDecode body = .ok n)
    (hs : env.DecodeString n.Signature = .ok decSig)
    (hv : env.ValidateReq ⟨n.Nodetype, n.Address, n.Message, decSig, n.Secret⟩ = (pkey, true))
    (hp : env.ParsePubkey pkey = .ok pubkey)
    (hg : env.GenRandomASCII 64 = .ok randString)
    (he : env.EncryptMsg randString pubkey = .ok ciphertext)
    (hlen : n.Secret.length ≠ 64) :
    handlePost env body
      = ⟨some randString, .response 200 "application/json" (marshalledString ciphertext)⟩ := by
  rw [handlePost_accepted env body n decSig pkey pubkey hn hs hv hp]
  simp [hlen, hg, he]

theorem length_sample_secret : (EncodeToString sampleChallenge).length = 88 := by
  rw [length_EncodeToString]
  rfl

/-! ## The claims about `handlePost` -/

/-- C1: the handler never answers with status 400, whatever the request and whatever
the validator says of it; in particular it has no answer `400 "Invalid nodetype."`
for a request with an unknown node type. -/
theorem handlePost_status_ne_400 {PubKey : Type} (env : Env PubKey) (body : Bytes)
    (contentType : String) (secret : Bytes) :
    (handlePost env body).outcome ≠ .response 400 contentType secret := by
  rcases hn : env.jsonDecode body with err | n
  · simp [handlePost, hn]
  rcases hs : env.DecodeString n.Signature with err | decSig
  · simp [handlePost, hn, hs]
  rcases hv : env.ValidateReq ⟨n.Nodetype, n.Address, n.Message, decSig, n.Secret⟩
    with ⟨_ | pkey, _ | _⟩
  · simp [handlePost, hn, hs, hv]
  · rcases hp : env.ParsePubkey none with err | pubkey
    · simp [handlePost, hn, hs, hv, hp]
    rw [handlePost_accepted env body n decSig none pubkey hn hs hv hp]
    split
    · split
      · simp
      · split <;> simp
    · simp
  · simp [handlePost, hn, hs, hv]
  · rcases hp : env.ParsePubkey (some pkey) with err | pubkey
    · simp [handlePost, hn, hs, hv, hp]
    rw [handlePost_accepted env body n decSig (some pkey) pubkey hn hs hv hp]
    split
    · split
      · simp
      · split <;> simp
    · simp

/-- C3, as stated, fails: the validator reports the request not valid with the
payload `FF 41`, which is not valid UTF-8; the `secret` of the body is
`EF BF BD 41`, the payload with its first byte replaced by U+FFFD, and not the
payload itself. -/
theorem no_descriptor_payload_coerced :
    sampleEnv.ValidateReq ⟨ascii "node", ascii "garbled.onion", ascii "I am a DAM node!",
        ascii "sig", []⟩ = (some [0xFF, 0x41], false)
      ∧ handlePost sampleEnv [8]
          = ⟨none, .response 500 "application/json" [0xEF, 0xBF, 0xBD, 0x41]⟩
      ∧ handlePost sampleEnv [8] ≠ ⟨none, .response 500 "application/json" [0xFF, 0x41]⟩ := by
  decide

/-- C3, amended: when the validator reports the request not valid and gives a
non-nil payload, the handler answers with status 500 and a body whose `secret` is
that payload as `json.Marshal` writes a string, every byte that is not part of a
valid UTF-8 encoding replaced by U+FFFD; for a payload that is valid UTF-8 the
`secret` is exactly the payload. It generates no challenge. -/
theorem handlePost_no_descriptor {PubKey : Type} (env : Env PubKey) (body : Bytes)
    (n : nodeStruct) (decSig pkey : Bytes)
    (hn : env.jsonDecode body = .ok n)
    (hs : env.DecodeString n.Signature = .ok decSig)
    (hv : env.ValidateReq ⟨n.Nodetype, n.Address, n.Message, decSig, n.Secret⟩
      = (some pkey, false)) :
    handlePost env body = ⟨none, .response 500 "application/json" (marshalledString pkey)⟩
      ∧ (Valid pkey = true →
          handlePost env body = ⟨none, .response 500 "application/json" pkey⟩) := by
  have h : handlePost env body
      = ⟨none, .response 500 "application/json" (marshalledString pkey)⟩ := by
    simp only [handlePost, hn, hs, hv]
  refine ⟨h, fun hvalid => ?_⟩
  rw [h, marshalledString_of_Valid pkey hvalid]

theorem handlePost_no_descriptor_witness :
    Valid sampleDiagnostic = true
      ∧ handlePost sampleEnv [5]
          = ⟨none, .response 500 "application/json" sampleDiagnostic⟩
      ∧ handlePost sampleEnv [8]
          = ⟨none, .response 500 "application/json" (marshalledString garbledDiagnostic)⟩ :=
  ⟨by decide,
   (handlePost_no_descriptor sampleEnv [5] { ValidFirst with Address := ascii "offline.onion" }
      (ascii "sig") sampleDiagnostic (by decide) (by decide) (by decide)).2 (by decide),
   (handlePost_no_descriptor sampleEnv [8] { ValidFirst with Address := ascii "garbled.onion" }
      (ascii "sig") garbledDiagnostic (by decide) (by decide) (by decide)).1⟩

/-- C4: on an accepted request with an empty secret the handler answers 200 and the
`secret` of the body is the string made of the bytes of the ciphertext, as
`EncryptMsg` returned them and as `json.Marshal` writes a string; this is never the
base64 encoding of the ciphertext. -/
theorem handlePost_secret_not_base64 {PubKey : Type} (env : Env PubKey) (body : Bytes)
    (n : nodeStruct) (decSig : Bytes) (pkey : Option Bytes) (pubkey : PubKey)
    (randString ciphertext : Bytes)
    (hn : env.jsonDecode body = .ok n)
    (hs : env.DecodeString n.Signature = .ok decSig)
    (hv : env.ValidateReq ⟨n.Nodetype, n.Address, n.Message, decSig, n.Secret⟩ = (pkey, true))
    (hp : env.ParsePubkey pkey = .ok pubkey)
    (hsecret : n.Secret = [])
    (hg : env.GenRandomASCII 64 = .ok randString)
    (he : env.EncryptMsg randString pubkey = .ok ciphertext)
    (hc : ciphertext ≠ []) :
    handlePost env body
        = ⟨some randString, .response 200 "application/json" (marshalledString ciphertext)⟩
      ∧ marshalledString ciphertext ≠ EncodeToString ciphertext :=
  ⟨handlePost_challenge env body n decSig pkey pubkey randString ciphertext hn hs hv hp hg he
      (by simp [hsecret]),
   marshalledString_ne_EncodeToString ciphertext hc⟩

theorem handlePost_secret_not_base64_witness :
    handlePost sampleEnv [1]
        = ⟨some sampleChallenge,
            .response 200 "application/json" (marshalledString (sampleEncrypt sampleChallenge))⟩
      ∧ marshalledString (sampleEncrypt sampleChallenge)
          ≠ EncodeToString (sampleEncrypt sampleChallenge) :=
  handlePost_secret_not_base64 sampleEnv [1] ValidFirst (ascii "sig") (some sampleKey)
    sampleKey sampleChallenge (sampleEncrypt sampleChallenge)
    (by decide) (by decide) (by decide) (by decide) (by decide) (by decide) (by decide)
    (by decide)

/-- C5: on an accepted request whose secret is 64 bytes long (the decrypted challenge)
the handler returns without writing anything: no welcome message is sent. -/
theorem handlePost_round2_writes_nothing {PubKey : Type} (env : Env PubKey) (body : Bytes)
    (n : nodeStruct) (decSig : Bytes) (pkey : Option Bytes) (pubkey : PubKey)
    (hn : env.jsonDecode body = .ok n)
    (hs : env.DecodeString n.Signature = .ok decSig)
    (hv : env.ValidateReq ⟨n.Nodetype, n.Address, n.Message, decSig, n.Secret⟩ = (pkey, true))
    (hp : env.ParsePubkey pkey = .ok pubkey)
    (hlen : n.Secret.length = 64) :
    (handlePost env body).outcome = .returned :=
  congrArg Result.outcome (handlePost_returned env body n decSig pkey pubkey hn hs hv hp hlen)

theorem handlePost_round2_writes_nothing_witness :
    (handlePost sampleEnv [3]).outcome = .returned :=
  handlePost_round2_writes_nothing sampleEnv [3]
    { ValidFirst with Message := sampleChallenge, Secret := sampleChallenge }
    (ascii "sig") (some sampleKey) sampleKey
    (by decide) (by decide) (by decide) (by decide) (by decide)

/-- C6: when the validator reports the request not valid and gives no payload, the
handler calls `log.Fatalln`: the process exits and the caller gets no response. -/
theorem handlePost_rejected_is_fatal {PubKey : Type} (env : Env PubKey) (body : Bytes)
    (n : nodeStruct) (decSig : Bytes)
    (hn : env.jsonDecode body = .ok n)
    (hs : env.DecodeString n.Signature = .ok decSig)
    (hv : env.ValidateReq ⟨n.Nodetype, n.Address, n.Message, decSig, n.Secret⟩
      = (none, false)) :
    handlePost env body = ⟨none, .fatal "Request is not valid."⟩ := by
  simp only [handlePost, hn, hs, hv]

theorem handlePost_rejected_is_fatal_witness :
    handlePost sampleEnv [2] = ⟨none, .fatal "Request is not valid."⟩ :=
  handlePost_rejected_is_fatal sampleEnv [2] { ValidFirst with Nodetype := ascii "foobar" }
    (ascii "sig") (by decide) (by decide) (by decide)

/-- C7: after an accepted round-1 request, answered with the encrypted challenge
`randString`, an accepted request that presents exactly `randString` as its secret
is answered the same way the first and the second time: both times the handler
returns without writing anything, and the second request does not fail. -/
theorem serve_issued_challenge_twice {PubKey : Type} (env : Env PubKey) (first body : Bytes)
    (n₁ n₂ : nodeStruct) (decSig₁ decSig₂ : Bytes) (pkey₁ pkey₂ : Option Bytes)
    (pubkey₁ pubkey₂ : PubKey) (randString ciphertext : Bytes)
    (hn₁ : env.jsonDecode first = .ok n₁)
    (hs₁ : env.DecodeString n₁.Signature = .ok decSig₁)
    (hv₁ : env.ValidateReq ⟨n₁.Nodetype, n₁.Address, n₁.Message, decSig₁, n₁.Secret⟩
      = (pkey₁, true))
    (hp₁ : env.ParsePubkey pkey₁ = .ok pubkey₁)
    (hempty : n₁.Secret = [])
    (hg : env.GenRandomASCII 64 = .ok randString)
    (hr : randString.length = 64)
    (he : env.EncryptMsg randString pubkey₁ = .ok ciphertext)
    (hn₂ : env.jsonDecode body = .ok n₂)
    (hs₂ : env.DecodeString n₂.Signature = .ok decSig₂)
    (hv₂ : env.ValidateReq ⟨n₂.Nodetype, n₂.Address, n₂.Message, decSig₂, n₂.Secret⟩
      = (pkey₂, true))
    (hp₂ : env.ParsePubkey pkey₂ = .ok pubkey₂)
    (hsecret : n₂.Secret = randString) :
    serve env [first, body, body]
      = [⟨some randString, .response 200 "application/json" (marshalledString ciphertext)⟩,
         ⟨none, .returned⟩, ⟨none, .returned⟩] := by
  have h₁ := handlePost_challenge env first n₁ decSig₁ pkey₁ pubkey₁ randString ciphertext
    hn₁ hs₁ hv₁ hp₁ hg he (by simp [hempty])
  have h₂ := handlePost_returned env body n₂ decSig₂ pkey₂ pubkey₂ hn₂ hs₂ hv₂ hp₂
    (by rw [hsecret, hr])
  simp [serve, h₁, h₂, Outcome.serving]

theorem serve_issued_challenge_twice_witness :
    serve sampleEnv [[1], [3], [3]]
      = [⟨some sampleChallenge,
            .response 200 "application/json" (marshalledString (sampleEncrypt sampleChallenge))⟩,
         ⟨none, .returned⟩, ⟨none, .returned⟩] :=
  serve_issued_challenge_twice sampleEnv [1] [3] ValidFirst
    { ValidFirst with Message := sampleChallenge, Secret := sampleChallenge }
    (ascii "sig") (ascii "sig") (some sampleKey) (some sampleKey) sampleKey sampleKey
    sampleChallenge (sampleEncrypt sampleChallenge)
    (by decide) (by decide) (by decide) (by decide) (by decide) (by decide) (by decide)
    (by decide) (by decide) (by decide) (by decide) (by decide) (by decide)

/-- C8: an accepted request whose secret is not empty and not 64 bytes long, such as
the 88-character base64 form of the decrypted challenge, takes the round-1 path: a
new challenge is generated and returned encrypted with status 200. -/
theorem handlePost_nonempty_secret_new_challenge {PubKey : Type} (env : Env PubKey)
    (body : Bytes) (n : nodeStruct) (decSig : Bytes) (pkey : Option Bytes) (pubkey : PubKey)
    (randString ciphertext : Bytes)
    (hn : env.jsonDecode body = .ok n)
    (hs : env.DecodeString n.Signature = .ok decSig)
    (hv : env.ValidateReq ⟨n.Nodetype, n.Address, n.Message, decSig, n.Secret⟩ = (pkey, true))
    (hp : env.ParsePubkey pkey = .ok pubkey)
    (hg : env.GenRandomASCII 64 = .ok randString)
    (he : env.EncryptMsg randString pubkey = .ok ciphertext)
    (_hne : n.Secret ≠ [])
    (hlen : n.Secret.length ≠ 64) :
    handlePost env body
      = ⟨some randString, .response 200 "application/json" (marshalledString ciphertext)⟩ :=
  handlePost_challenge env body n decSig pkey pubkey randString ciphertext
    hn hs hv hp hg he hlen

theorem handlePost_nonempty_secret_new_challenge_witness :
    (EncodeToString sampleChallenge).length = 88
      ∧ handlePost sampleEnv [7]
          = ⟨some sampleChallenge,
              .response 200 "application/json"
                (marshalledString (sampleEncrypt sampleChallenge))⟩ :=
  ⟨length_sample_secret, handlePost_nonempty_secret_new_challenge sampleEnv [7]
    { ValidFirst with Message := EncodeToString sampleChallenge,
                      Secret := EncodeToString sampleChallenge }
    (ascii "sig") (some sampleKey) sampleKey sampleChallenge (sampleEncrypt sampleChallenge)
    rfl (by decide) (by decide) (by decide) (by decide) (by decide)
    (fun h => absurd (congrArg List.length h) (by
      show (EncodeToString sampleChallenge).length ≠ 0
      rw [length_sample_secret]
      decide))
    (by
      show (EncodeToString sampleChallenge).length ≠ 64
      rw [length_sample_secret]
      decide)⟩

/-! ## Facts about the onion address -/

theorem length_le_toDigitsCore (b fuel n : Nat) (ds : List Char) :
    ds.length ≤ (Nat.toDigitsCore b fuel n ds).length := by
  induction fuel generalizing n ds with
  | zero => simp [Nat.toDigitsCore]
  | succ fuel ih =>
    simp only [Nat.toDigitsCore]
    split
    · simp
    · have h := ih (n / b) (Nat.digitChar (n % b) :: ds)
      simp only [List.length_cons] at h
      omega

theorem two_le_length_toDigits (p : Nat) (h : 10 ≤ p) : 2 ≤ (Nat.toDigits 10 p).length := by
  obtain ⟨q, rfl⟩ : ∃ q, p = q + 1 := ⟨p - 1, by omega⟩
  have hq : (q + 1) / 10 ≠ 0 := by omega
  have hstep : Nat.toDigits 10 (q + 1)
      = Nat.toDigitsCore 10 (q + 1) ((q + 1) / 10) [Nat.digitChar ((q + 1) % 10)] := by
    simp [Nat.toDigits, Nat.toDigitsCore, hq]
  rw [hstep]
  simp only [Nat.toDigitsCore]
  split
  · simp
  · have h2 := length_le_toDigitsCore 10 q ((q + 1) / 10 / 10)
      [Nat.digitChar ((q + 1) / 10 % 10), Nat.digitChar ((q + 1) % 10)]
    simpa using h2

theorem length_stringOfInt (n : Int) : (stringOfInt n).data.length = 1 := by
  unfold stringOfInt
  split <;> rfl

theorem stringOfInt_ne_repr (p : Nat) : stringOfInt (p : Int) ≠ Nat.repr p := by
  by_cases h : 10 ≤ p
  · intro heq
    have h1 := length_stringOfInt (p : Int)
    have h2 := two_le_length_toDigits p h
    rw [heq] at h1
    simp only [Nat.repr, List.asString] at h1
    omega
  · have hp : p < 10 := by omega
    interval_cases p <;> decide

theorem Onion_eq (onionaddr : String) (port : Int) :
    Onion onionaddr port = TrimSuffix onionaddr "\n" ++ ":" ++ stringOfInt port := rfl

/-! ## The claim about the onion address -/

/-- C10: the address `main` computes is never the trimmed hostname followed by `:`
and the decimal representation of the port: the code converts the port with
`string(port)`, which gives the one character whose code point is the port. -/
theorem Onion_ne_host_colon_decimal (onionaddr : String) (port : Nat) :
    Onion onionaddr (port : Int) ≠ TrimSuffix onionaddr "\n" ++ ":" ++ Nat.repr port := by
  intro h
  rw [Onion_eq] at h
  have hd := congrArg String.data h
  simp only [String.data_append, List.append_cancel_left_eq] at hd
  exact stringOfInt_ne_repr port (String.ext hd)

theorem Onion_default_port :
    Onion "p7qaewjgnvnaeihhyybmoofd5avh665kr3awoxlh5rt6ox743kjdr6qd.onion\n" 49371
      = "p7qaewjgnvnaeihhyybmoofd5avh665kr3awoxlh5rt6ox743kjdr6qd.onion:"
          ++ String.singleton (Char.ofNat 0xC0DB) := by
  decide

/-! ## Facts about the fan-out -/

theorem countP_set_getElem? {α : Type} (p : α → Bool) (l : List α) (k : Nat) (a b : α)
    (h : l[k]? = some a) :
    (l.set k b).countP p + (if p a then 1 else 0) = l.countP p + (if p b then 1 else 0) := by
  obtain ⟨hk, rfl⟩ := List.getElem?_eq_some.mp h
  have h1 := List.countP_set p l k b hk
  have h2 := List.boole_getElem_le_countP p l k hk
  omega

theorem Inv_init (ok : Nat → Bool) (seeds : List String) :
    Inv ok seeds.length (FanOut.init seeds) where
  len := by simp [FanOut.init]
  wg_eq := by simp [FanOut.init]
  calls_eq := by simp [FanOut.init]
  ok_of_mid := by simp [FanOut.init]
  succ_pos := by simp [FanOut.init]
  succ_le := by simp [FanOut.init]
  loaded_le := by simp [FanOut.init]
  verdict_eq := by simp [FanOut.init]

theorem Inv_stepMain (ok : Nat → Bool) (n : Nat) (s t : FanOut) (hinv : Inv ok n s)
    (h : stepMain s = some t) : Inv ok n t := by
  unfold stepMain at h
  split at h
  · simp at h
  · rename_i hv
    split at h
    · rename_i seed rest hp
      simp only [Option.some.injEq] at h
      subst h
      refine ⟨?_, ?_, ?_, ?_, ?_, ?_, ?_, ?_⟩
      · have := hinv.len
        simp [hp] at this ⊢
        omega
      · simp [hinv.wg_eq, Phase.isDone]
      · simp [hinv.calls_eq, Phase.isStarted]
      · intro k g hk hs hd
        simp only [List.getElem?_append] at hk
        split at hk
        · exact hinv.ok_of_mid k g hk hs hd
        · cases hidx : k - s.goroutines.length with
          | zero => simp [hidx] at hk; subst hk; simp [Phase.isStarted] at hs
          | succ m => simp [hidx] at hk
      · rw [hinv.succ_pos]
        constructor
        · rintro ⟨k, g, hk, hd, hok⟩
          refine ⟨k, g, ?_, hd, hok⟩
          have hlt : k < s.goroutines.length := (List.getElem?_eq_some.mp hk).1
          simp [List.getElem?_append, hlt, hk]
        · rintro ⟨k, g, hk, hd, hok⟩
          simp only [List.getElem?_append] at hk
          split at hk
          · exact ⟨k, g, hk, hd, hok⟩
          · cases hidx : k - s.goroutines.length with
            | zero => simp [hidx] at hk; subst hk; simp [Phase.isDone] at hd
            | succ m => simp [hidx] at hk
      · simpa [Phase.isDone] using hinv.succ_le
      · intro k g v hk hl
        simp only [List.getElem?_append] at hk
        split at hk
        · simpa [Phase.isDone] using hinv.loaded_le k g v hk hl
        · cases hidx : k - s.goroutines.length with
          | zero => simp [hidx] at hk; subst hk; simp at hl
          | succ m => simp [hidx] at hk
      · intro v hv'
        simp [hv] at hv'
    · rename_i hp
      split at h
      · rename_i hwg
        split at h <;>
        · rename_i hsucc
          simp only [Option.some.injEq] at h
          subst h
          refine ⟨hinv.len, hinv.wg_eq, hinv.calls_eq, hinv.ok_of_mid, hinv.succ_pos,
            hinv.succ_le, hinv.loaded_le, ?_⟩
          intro v hv'
          simp only [Option.some.injEq] at hv'
          subst hv'
          simp [hp, hwg, hsucc]
      · simp at h

theorem getElem?_set_eq_some {α : Type} (l : List α) (k j : Nat) (a b c : α)
    (h : l[k]? = some a) :
    (l.set k b)[j]? = some c ↔ (j = k ∧ c = b) ∨ (j ≠ k ∧ l[j]? = some c) := by
  have hk : k < l.length := (List.getElem?_eq_some.mp h).1
  rw [List.getElem?_set]
  by_cases hjk : k = j
  · subst hjk
    simp [hk, eq_comm]
  · have hjk2 : j ≠ k := fun e => hjk e.symm
    simp [hjk, hjk2]

theorem verdict_none_of_not_done (ok : Nat → Bool) (n : Nat) (s : FanOut) (hinv : Inv ok n s)
    (k : Nat) (g : Goroutine) (hk : s.goroutines[k]? = some g)
    (hd : g.phase.isDone = false) : s.verdict = none := by
  cases hv : s.verdict with
  | none => rfl
  | some v =>
    exfalso
    have hwg := (hinv.verdict_eq v hv).2.1
    rw [hinv.wg_eq, List.countP_eq_zero] at hwg
    have hmem : g ∈ s.goroutines := List.getElem?_mem hk
    have := hwg g hmem
    simp [hd] at this

theorem countP_set_same {α : Type} (p : α → Bool) (l : List α) (k : Nat) (a b : α)
    (h : l[k]? = some a) (hab : p a = p b) : (l.set k b).countP p = l.countP p := by
  have := countP_set_getElem? p l k a b h
  rw [hab] at this
  omega

theorem countP_set_gain {α : Type} (p : α → Bool) (l : List α) (k : Nat) (a b : α)
    (h : l[k]? = some a) (ha : p a = false) (hb : p b = true) :
    (l.set k b).countP p = l.countP p + 1 := by
  have := countP_set_getElem? p l k a b h
  simp [ha, hb] at this
  exact this

theorem countP_set_loss {α : Type} (p : α → Bool) (l : List α) (k : Nat) (a b : α)
    (h : l[k]? = some a) (ha : p a = true) (hb : p b = false) :
    (l.set k b).countP p + 1 = l.countP p := by
  have := countP_set_getElem? p l k a b h
  simp [ha, hb] at this
  exact this

theorem Inv_stepGo (ok : Nat → Bool) (n : Nat) (k : Nat) (s t : FanOut) (hinv : Inv ok n s)
    (h : stepGo ok k s = some t) : Inv ok n t := by
  unfold stepGo at h
  split at h
  · simp at h
  · rename_i g hk
    have hset := fun (j : Nat) (b c : Goroutine) =>
      getElem?_set_eq_some s.goroutines k j g b c hk
    have hlen := hinv.len
    have hwg := hinv.wg_eq
    have hcalls := hinv.calls_eq
    have hsucc := hinv.succ_le
    split at h
    · rename_i hph
      have hnd : g.phase.isDone = false := by simp [hph, Phase.isDone]
      have hvn := verdict_none_of_not_done ok n s hinv k g hk hnd
      split at h
      · rename_i hok
        simp only [Option.some.injEq] at h
        subst h
        have hD := countP_set_same (fun g => g.phase.isDone) s.goroutines k g
          ⟨g.x, .announced⟩ hk (by simp [hph, Phase.isDone])
        have hND := countP_set_same (fun g => !g.phase.isDone) s.goroutines k g
          ⟨g.x, .announced⟩ hk (by simp [hph, Phase.isDone])
        have hNS := countP_set_gain (fun g => !g.phase.isStarted) s.goroutines k g
          ⟨g.x, .announced⟩ hk (by simp [hph, Phase.isStarted]) (by simp [Phase.isStarted])
        refine ⟨?_, ?_, ?_, ?_, ?_, ?_, ?_, ?_⟩
        · simpa using hinv.len
        · dsimp only
          omega
        · simp only [List.length_append, List.length_singleton]
          omega
        · intro j c hj hs hd
          rcases (hset j _ c).mp hj with ⟨rfl, _⟩ | ⟨_, hj'⟩
          · exact hok
          · exact hinv.ok_of_mid j c hj' hs hd
        · rw [hinv.succ_pos]
          constructor
          · rintro ⟨j, c, hj, hd, hokj⟩
            refine ⟨j, c, (hset j _ c).mpr (Or.inr ⟨?_, hj⟩), hd, hokj⟩
            rintro rfl
            rw [hk] at hj
            simp only [Option.some.injEq] at hj
            subst hj
            simp [hnd] at hd
          · rintro ⟨j, c, hj, hd, hokj⟩
            rcases (hset j _ c).mp hj with ⟨rfl, rfl⟩ | ⟨_, hj'⟩
            · simp [Phase.isDone] at hd
            · exact ⟨j, c, hj', hd, hokj⟩
        · dsimp only
          omega
        · intro j c v hj hl
          rcases (hset j _ c).mp hj with ⟨rfl, rfl⟩ | ⟨_, hj'⟩
          · simp at hl
          · have := hinv.loaded_le j c v hj' hl
            dsimp only
            omega
        · intro v hv
          simp [hvn] at hv
      · rename_i hok
        simp only [Option.some.injEq] at h
        subst h
        have hokf : ok k = false := by simpa using hok
        have hD := countP_set_gain (fun g => g.phase.isDone) s.goroutines k g
          ⟨g.x, .done⟩ hk (by simp [hph, Phase.isDone]) (by simp [Phase.isDone])
        have hND := countP_set_loss (fun g => !g.phase.isDone) s.goroutines k g
          ⟨g.x, .done⟩ hk (by simp [hph, Phase.isDone]) (by simp [Phase.isDone])
        have hNS := countP_set_gain (fun g => !g.phase.isStarted) s.goroutines k g
          ⟨g.x, .done⟩ hk (by simp [hph, Phase.isStarted]) (by simp [Phase.isStarted])
        refine ⟨?_, ?_, ?_, ?_, ?_, ?_, ?_, ?_⟩
        · simpa using hinv.len
        · dsimp only
          omega
        · simp only [List.length_append, List.length_singleton]
          omega
        · intro j c hj hs hd
          rcases (hset j _ c).mp hj with ⟨rfl, rfl⟩ | ⟨_, hj'⟩
          · simp [Phase.isDone] at hd
          · exact hinv.ok_of_mid j c hj' hs hd
        · rw [hinv.succ_pos]
          constructor
          · rintro ⟨j, c, hj, hd, hokj⟩
            refine ⟨j, c, (hset j _ c).mpr (Or.inr ⟨?_, hj⟩), hd, hokj⟩
            rintro rfl
            simp [hokf] at hokj
          · rintro ⟨j, c, hj, hd, hokj⟩
            rcases (hset j _ c).mp hj with ⟨rfl, rfl⟩ | ⟨_, hj'⟩
            · simp [hokf] at hokj
            · exact ⟨j, c, hj', hd, hokj⟩
        · dsimp only
          omega
        · intro j c v hj hl
          rcases (hset j _ c).mp hj with ⟨rfl, rfl⟩ | ⟨_, hj'⟩
          · simp at hl
          · have := hinv.loaded_le j c v hj' hl
            dsimp only
            omega
        · intro v hv
          simp [hvn] at hv
    · rename_i hph
      have hnd : g.phase.isDone = false := by simp [hph, Phase.isDone]
      have hvn := verdict_none_of_not_done ok n s hinv k g hk hnd
      have hok : ok k = true := hinv.ok_of_mid k g hk (by simp [hph, Phase.isStarted]) hnd
      simp only [Option.some.injEq] at h
      subst h
      have hD := countP_set_same (fun g => g.phase.isDone) s.goroutines k g
        ⟨g.x, .loaded s.succ⟩ hk (by simp [hph, Phase.isDone])
      have hND := countP_set_same (fun g => !g.phase.isDone) s.goroutines k g
        ⟨g.x, .loaded s.succ⟩ hk (by simp [hph, Phase.isDone])
      have hNS := countP_set_same (fun g => !g.phase.isStarted) s.goroutines k g
        ⟨g.x, .loaded s.succ⟩ hk (by simp [hph, Phase.isStarted])
      refine ⟨?_, ?_, ?_, ?_, ?_, ?_, ?_, ?_⟩
      · simpa using hinv.len
      · dsimp only
        omega
      · dsimp only
        omega
      · intro j c hj hs hd
        rcases (hset j _ c).mp hj with ⟨rfl, _⟩ | ⟨_, hj'⟩
        · exact hok
        · exact hinv.ok_of_mid j c hj' hs hd
      · rw [hinv.succ_pos]
        constructor
        · rintro ⟨j, c, hj, hd, hokj⟩
          refine ⟨j, c, (hset j _ c).mpr (Or.inr ⟨?_, hj⟩), hd, hokj⟩
          rintro rfl
          rw [hk] at hj
          simp only [Option.some.injEq] at hj
          subst hj
          simp [hnd] at hd
        · rintro ⟨j, c, hj, hd, hokj⟩
          rcases (hset j _ c).mp hj with ⟨rfl, rfl⟩ | ⟨_, hj'⟩
          · simp [Phase.isDone] at hd
          · exact ⟨j, c, hj', hd, hokj⟩
      · dsimp only
        omega
      · intro j c v hj hl
        rcases (hset j _ c).mp hj with ⟨rfl, rfl⟩ | ⟨_, hj'⟩
        · simp only [Phase.loaded.injEq] at hl
          subst hl
          dsimp only
          omega
        · have := hinv.loaded_le j c v hj' hl
          dsimp only
          omega
      · intro v hv
        simp [hvn] at hv
    · rename_i v hph
      have hnd : g.phase.isDone = false := by simp [hph, Phase.isDone]
      have hvn := verdict_none_of_not_done ok n s hinv k g hk hnd
      have hok : ok k = true := hinv.ok_of_mid k g hk (by simp [hph, Phase.isStarted]) hnd
      have hv : v ≤ s.goroutines.countP (fun g => g.phase.isDone) :=
        hinv.loaded_le k g v hk hph
      simp only [Option.some.injEq] at h
      subst h
      have hD := countP_set_gain (fun g => g.phase.isDone) s.goroutines k g
        ⟨g.x, .done⟩ hk (by simp [hph, Phase.isDone]) (by simp [Phase.isDone])
      have hND := countP_set_loss (fun g => !g.phase.isDone) s.goroutines k g
        ⟨g.x, .done⟩ hk (by simp [hph, Phase.isDone]) (by simp [Phase.isDone])
      have hNS := countP_set_same (fun g => !g.phase.isStarted) s.goroutines k g
        ⟨g.x, .done⟩ hk (by simp [hph, Phase.isStarted])
      refine ⟨?_, ?_, ?_, ?_, ?_, ?_, ?_, ?_⟩
      · simpa using hinv.len
      · dsimp only
        omega
      · dsimp only
        omega
      · intro j c hj hs hd
        rcases (hset j _ c).mp hj with ⟨rfl, rfl⟩ | ⟨_, hj'⟩
        · simp [Phase.isDone] at hd
        · exact hinv.ok_of_mid j c hj' hs hd
      · constructor
        · intro _
          exact ⟨k, ⟨g.x, .done⟩, (hset k _ _).mpr (Or.inl ⟨rfl, rfl⟩), rfl, hok⟩
        · intro _
          simp
      · dsimp only
        omega
      · intro j c w hj hl
        rcases (hset j _ c).mp hj with ⟨rfl, rfl⟩ | ⟨_, hj'⟩
        · simp at hl
        · have := hinv.loaded_le j c w hj' hl
          dsimp only
          omega
      · intro w hw
        simp [hvn] at hw
    · simp at h

theorem Inv_step (ok : Nat → Bool) (n : Nat) (t : Thread) (s u : FanOut) (hinv : Inv ok n s)
    (h : step ok t s = some u) : Inv ok n u := by
  cases t with
  | main => exact Inv_stepMain ok n s u hinv h
  | go k => exact Inv_stepGo ok n k s u hinv h

theorem Inv_run (ok : Nat → Bool) (n : Nat) (schedule : List Thread) (s : FanOut)
    (hinv : Inv ok n s) : Inv ok n (run ok schedule s) := by
  induction schedule generalizing s with
  | nil => exact hinv
  | cons t rest ih =>
    simp only [run, List.foldl_cons]
    apply ih
    cases h : step ok t s with
    | none => simpa using hinv
    | some u => simpa using Inv_step ok n t s u hinv h

theorem Inv_all_done (ok : Nat → Bool) (n : Nat) (s : FanOut) (hinv : Inv ok n s)
    (v : Verdict) (hv : s.verdict = some v) :
    s.goroutines.length = n ∧ ∀ g ∈ s.goroutines, g.phase.isDone = true := by
  obtain ⟨hp, hwg, _⟩ := hinv.verdict_eq v hv
  constructor
  · have := hinv.len
    simp [hp] at this
    exact this
  · rw [hinv.wg_eq, List.countP_eq_zero] at hwg
    intro g hg
    simpa using hwg g hg

theorem sum_map_set {α : Type} (f : α → Nat) (l : List α) (k : Nat) (a b : α)
    (h : l[k]? = some a) :
    ((l.set k b).map f).sum + f a = (l.map f).sum + f b := by
  induction l generalizing k with
  | nil => simp at h
  | cons x l ih =>
    cases k with
    | zero =>
      simp only [List.getElem?_cons_zero, Option.some.injEq] at h
      subst h
      simp only [List.set_cons_zero, List.map_cons, List.sum_cons]
      omega
    | succ k =>
      simp only [List.getElem?_cons_succ] at h
      have := ih k h
      simp only [List.set_cons_succ, List.map_cons, List.sum_cons]
      omega

theorem measure_eq (s : FanOut) (hv : s.verdict = none) :
    s.measure = 4 * s.pending.length + (s.goroutines.map fun g => g.phase.weight).sum + 1 := by
  simp [FanOut.measure, hv]

theorem measure_go (s : FanOut) (k : Nat) (g b : Goroutine) (succ wg : Nat)
    (calls : List (Nat × String)) (hv : s.verdict = none) (hk : s.goroutines[k]? = some g)
    (hlt : b.phase.weight < g.phase.weight) :
    FanOut.measure { s with succ := succ, wg := wg, calls := calls,
                            goroutines := s.goroutines.set k b } < s.measure := by
  have hsum := sum_map_set (fun g : Goroutine => g.phase.weight) s.goroutines k g b hk
  beta_reduce at hsum
  rw [measure_eq s hv]
  simp only [FanOut.measure, hv, Option.isSome_none, Bool.false_eq_true, if_false]
  omega

theorem exists_step (ok : Nat → Bool) (n : Nat) (s : FanOut) (hinv : Inv ok n s)
    (hv : s.verdict = none) :
    ∃ t u, step ok t s = some u ∧ u.measure < s.measure := by
  cases hp : s.pending with
  | cons seed rest =>
    refine ⟨.main, _, by simp only [step, stepMain, hv, hp]; rfl, ?_⟩
    simp [FanOut.measure, hv, hp, Phase.weight]
    omega
  | nil =>
    by_cases hwg : s.wg = 0
    · by_cases hsucc : s.succ < 1
      · refine ⟨.main, _, by simp only [step, stepMain, hv, hp, hwg, hsucc, if_true]; rfl, ?_⟩
        simp [FanOut.measure, hv]
        omega
      · refine ⟨.main, _,
          by simp only [step, stepMain, hv, hp, hwg, hsucc, if_true, if_false]; rfl, ?_⟩
        simp [FanOut.measure, hv]
        omega
    · have hcount : s.goroutines.countP (fun g => !g.phase.isDone) ≠ 0 := by
        rw [← hinv.wg_eq]
        exact hwg
      rw [Ne, List.countP_eq_zero] at hcount
      push_neg at hcount
      obtain ⟨g, hg, hnd⟩ := hcount
      obtain ⟨k, hk⟩ := List.mem_iff_getElem?.mp hg
      cases hph : g.phase with
      | started =>
        cases hok : ok k with
        | true =>
          refine ⟨.go k, _, by simp only [step, stepGo, hk, hph, hok, if_true]; rfl, ?_⟩
          exact measure_go s k g ⟨g.x, .announced⟩ _ _ _ hv hk (by rw [hph]; simp [Phase.weight])
        | false =>
          refine ⟨.go k, _, by simp [step, stepGo, hk, hph, hok]; rfl, ?_⟩
          exact measure_go s k g ⟨g.x, .done⟩ _ _ _ hv hk (by rw [hph]; simp [Phase.weight])
      | announced =>
        refine ⟨.go k, _, by simp only [step, stepGo, hk, hph]; rfl, ?_⟩
        exact measure_go s k g ⟨g.x, .loaded s.succ⟩ _ _ _ hv hk
          (by rw [hph]; simp [Phase.weight])
      | loaded v =>
        refine ⟨.go k, _, by simp only [step, stepGo, hk, hph]; rfl, ?_⟩
        exact measure_go s k g ⟨g.x, .done⟩ _ _ _ hv hk (by rw [hph]; simp [Phase.weight])
      | done => simp [hph, Phase.isDone] at hnd

theorem exists_schedule (ok : Nat → Bool) (n : Nat) (m : Nat) (s : FanOut)
    (hinv : Inv ok n s) (hm : s.measure ≤ m) :
    ∃ schedule, (run ok schedule s).verdict ≠ none := by
  induction m generalizing s with
  | zero =>
    refine ⟨[], ?_⟩
    intro hv
    simp [run] at hv
    simp [FanOut.measure, hv] at hm
  | succ m ih =>
    cases hv : s.verdict with
    | some v => exact ⟨[], by simp [run, hv]⟩
    | none =>
      obtain ⟨t, u, hstep, hlt⟩ := exists_step ok n s hinv hv
      obtain ⟨rest, hrest⟩ := ih u (Inv_step ok n t s u hinv hstep) (by omega)
      refine ⟨t :: rest, ?_⟩
      simpa [run, hstep] using hrest

theorem run_can_end (ok : Nat → Bool) (seeds : List String) (schedule : List Thread) :
    ∃ rest, (run ok (schedule ++ rest) (FanOut.init seeds)).verdict ≠ none := by
  have hinv := Inv_run ok seeds.length schedule _ (Inv_init ok seeds)
  obtain ⟨rest, hrest⟩ := exists_schedule ok seeds.length _ _ hinv (le_refl _)
  exact ⟨rest, by simpa [run, List.foldl_append] using hrest⟩

theorem InvCalls_init (seeds : List String) : InvCalls seeds (FanOut.init seeds) where
  args := by simp [FanOut.init]
  i_eq := by simp [FanOut.init]
  calls_nodup := by simp [FanOut.init]
  calls_mem := by simp [FanOut.init]
  calls_arg := by simp [FanOut.init]

theorem InvCalls_stepMain (seeds : List String) (s t : FanOut) (hinv : InvCalls seeds s)
    (h : stepMain s = some t) : InvCalls seeds t := by
  unfold stepMain at h
  split at h
  · simp at h
  · split at h
    · rename_i seed rest hp
      simp only [Option.some.injEq] at h
      subst h
      have hargs := hinv.args
      rw [hp] at hargs
      refine ⟨?_, ?_, hinv.calls_nodup, ?_, hinv.calls_arg⟩
      · simpa using hargs
      · intro m hm
        simp only [List.length_append, List.length_singleton, Nat.add_right_cancel_iff] at hm
        rw [← hargs, List.getElem?_append_right (by simp [hm])]
        simp [hm]
      · intro k
        rw [hinv.calls_mem k]
        constructor
        · rintro ⟨g, hk, hs⟩
          have hlt : k < s.goroutines.length := (List.getElem?_eq_some.mp hk).1
          exact ⟨g, by simp [List.getElem?_append, hlt, hk], hs⟩
        · rintro ⟨g, hk, hs⟩
          simp only [List.getElem?_append] at hk
          split at hk
          · exact ⟨g, hk, hs⟩
          · cases hidx : k - s.goroutines.length with
            | zero => simp [hidx] at hk; subst hk; simp [Phase.isStarted] at hs
            | succ m => simp [hidx] at hk
    · split at h
      · split at h <;>
        · simp only [Option.some.injEq] at h
          subst h
          exact ⟨hinv.args, hinv.i_eq, hinv.calls_nodup, hinv.calls_mem, hinv.calls_arg⟩
      · simp at h

theorem map_set_same {α β : Type} (f : α → β) (l : List α) (k : Nat) (a b : α)
    (h : l[k]? = some a) (hab : f b = f a) : (l.set k b).map f = l.map f := by
  induction l generalizing k with
  | nil => simp
  | cons x l ih =>
    cases k with
    | zero =>
      simp only [List.getElem?_cons_zero, Option.some.injEq] at h
      subst h
      simp [hab]
    | succ k =>
      simp only [List.getElem?_cons_succ] at h
      simp [ih k h]

theorem InvCalls_call (seeds : List String) (s : FanOut) (hinv : InvCalls seeds s)
    (k : Nat) (g : Goroutine) (ph : Phase) (succ wg : Nat)
    (hk : s.goroutines[k]? = some g) (hph : g.phase = .started)
    (hnew : ph.isStarted = false) :
    InvCalls seeds { s with succ := succ, wg := wg, calls := s.calls ++ [(k, s.i)],
                            goroutines := s.goroutines.set k ⟨g.x, ph⟩ } := by
  have hset := fun (j : Nat) (c : Goroutine) =>
    getElem?_set_eq_some s.goroutines k j g ⟨g.x, ph⟩ c hk
  have hklt : k < s.goroutines.length := (List.getElem?_eq_some.mp hk).1
  have hknot : k ∉ s.calls.map Prod.fst := by
    intro hmem
    obtain ⟨c, hc, hs⟩ := (hinv.calls_mem k).mp hmem
    rw [hk] at hc
    simp only [Option.some.injEq] at hc
    subst hc
    simp [hph, Phase.isStarted] at hs
  refine ⟨?_, ?_, ?_, ?_, ?_⟩
  · have := map_set_same (fun g : Goroutine => g.x) s.goroutines k g ⟨g.x, ph⟩ hk rfl
    simpa [this] using hinv.args
  · intro m hm
    exact hinv.i_eq m (by simpa using hm)
  · simp only [List.map_append, List.map_cons, List.map_nil]
    rw [List.nodup_append]
    refine ⟨hinv.calls_nodup, by simp, ?_⟩
    intro a ha hb
    simp only [List.mem_singleton] at hb
    subst hb
    exact hknot ha
  · intro j
    simp only [List.map_append, List.map_cons, List.map_nil, List.mem_append,
      List.mem_singleton]
    constructor
    · rintro (hj | rfl)
      · obtain ⟨c, hc, hs⟩ := (hinv.calls_mem j).mp hj
        refine ⟨c, (hset j c).mpr (Or.inr ⟨?_, hc⟩), hs⟩
        rintro rfl
        exact hknot hj
      · exact ⟨⟨g.x, ph⟩, (hset j _).mpr (Or.inl ⟨rfl, rfl⟩), hnew⟩
    · rintro ⟨c, hc, hs⟩
      rcases (hset j c).mp hc with ⟨rfl, _⟩ | ⟨_, hc'⟩
      · exact Or.inr rfl
      · exact Or.inl ((hinv.calls_mem j).mpr ⟨c, hc', hs⟩)
  · intro j a hja
    simp only [List.mem_append, List.mem_singleton, Prod.mk.injEq] at hja
    rcases hja with hja | ⟨rfl, rfl⟩
    · exact hinv.calls_arg j a hja
    · refine ⟨s.goroutines.length - 1, by omega, ?_⟩
      exact hinv.i_eq (s.goroutines.length - 1) (by omega)

theorem InvCalls_move (seeds : List String) (s : FanOut) (hinv : InvCalls seeds s)
    (k : Nat) (g : Goroutine) (ph : Phase) (succ wg : Nat)
    (hk : s.goroutines[k]? = some g) (hold : g.phase.isStarted = false)
    (hnew : ph.isStarted = false) :
    InvCalls seeds { s with succ := succ, wg := wg,
                            goroutines := s.goroutines.set k ⟨g.x, ph⟩ } := by
  have hset := fun (j : Nat) (c : Goroutine) =>
    getElem?_set_eq_some s.goroutines k j g ⟨g.x, ph⟩ c hk
  refine ⟨?_, ?_, hinv.calls_nodup, ?_, hinv.calls_arg⟩
  · have := map_set_same (fun g : Goroutine => g.x) s.goroutines k g ⟨g.x, ph⟩ hk rfl
    simpa [this] using hinv.args
  · intro m hm
    exact hinv.i_eq m (by simpa using hm)
  · intro j
    rw [hinv.calls_mem j]
    constructor
    · rintro ⟨c, hc, hs⟩
      by_cases hjk : j = k
      · subst hjk
        exact ⟨⟨g.x, ph⟩, (hset j _).mpr (Or.inl ⟨rfl, rfl⟩), hnew⟩
      · exact ⟨c, (hset j c).mpr (Or.inr ⟨hjk, hc⟩), hs⟩
    · rintro ⟨c, hc, hs⟩
      rcases (hset j c).mp hc with ⟨rfl, _⟩ | ⟨_, hc'⟩
      · exact ⟨g, hk, hold⟩
      · exact ⟨c, hc', hs⟩

theorem InvCalls_stepGo (ok : Nat → Bool) (seeds : List String) (k : Nat) (s t : FanOut)
    (hinv : InvCalls seeds s) (h : stepGo ok k s = some t) : InvCalls seeds t := by
  unfold stepGo at h
  split at h
  · simp at h
  · rename_i g hk
    split at h
    · rename_i hph
      split at h
      · simp only [Option.some.injEq] at h
        subst h
        exact InvCalls_call seeds s hinv k g .announced s.succ s.wg hk hph rfl
      · simp only [Option.some.injEq] at h
        subst h
        exact InvCalls_call seeds s hinv k g .done s.succ (s.wg - 1) hk hph rfl
    · rename_i hph
      simp only [Option.some.injEq] at h
      subst h
      exact InvCalls_move seeds s hinv k g (.loaded s.succ) s.succ s.wg hk
        (by simp [hph, Phase.isStarted]) rfl
    · rename_i v hph
      simp only [Option.some.injEq] at h
      subst h
      exact InvCalls_move seeds s hinv k g .done (v + 1) (s.wg - 1) hk
        (by simp [hph, Phase.isStarted]) rfl
    · simp at h

theorem InvCalls_run (ok : Nat → Bool) (seeds : List String) (schedule : List Thread)
    (s : FanOut) (hinv : InvCalls seeds s) : InvCalls seeds (run ok schedule s) := by
  induction schedule generalizing s with
  | nil => exact hinv
  | cons t rest ih =>
    simp only [run, List.foldl_cons]
    apply ih
    cases h : step ok t s with
    | none => simpa using hinv
    | some u =>
      cases t with
      | main => simpa using InvCalls_stepMain seeds s u hinv h
      | go k => simpa using InvCalls_stepGo ok seeds k s u hinv h

theorem run_fatal_iff (ok : Nat → Bool) (seeds : List String) (schedule : List Thread)
    (v : Verdict) (hv : (run ok schedule (FanOut.init seeds)).verdict = some v) :
    v = .fatal "No successful announces." ↔ ∀ k, k < seeds.length → ok k = false := by
  have hinv := Inv_run ok seeds.length schedule _ (Inv_init ok seeds)
  obtain ⟨hlen, hdone⟩ := Inv_all_done ok _ _ hinv v hv
  obtain ⟨_, _, hveq⟩ := hinv.verdict_eq v hv
  constructor
  · intro hfatal k hk
    have hsucc : ¬ 1 ≤ (run ok schedule (FanOut.init seeds)).succ := by
      intro h1
      rw [hfatal, if_neg (by omega)] at hveq
      simp at hveq
    rw [hinv.succ_pos] at hsucc
    cases hok : ok k with
    | false => rfl
    | true =>
      exfalso
      apply hsucc
      have hk' : k < (run ok schedule (FanOut.init seeds)).goroutines.length := by omega
      refine ⟨k, _, List.getElem?_eq_getElem hk', ?_, hok⟩
      exact hdone _ (List.getElem_mem hk')
  · intro hall
    have hsucc : ¬ 1 ≤ (run ok schedule (FanOut.init seeds)).succ := by
      rw [hinv.succ_pos]
      rintro ⟨k, g, hk, _, hok⟩
      have hk' : k < (run ok schedule (FanOut.init seeds)).goroutines.length :=
        (List.getElem?_eq_some.mp hk).1
      rw [hall k (by omega)] at hok
      simp at hok
    rw [hveq, if_pos (by omega)]

theorem run_count_bounds (ok : Nat → Bool) (seeds : List String) (schedule : List Thread)
    (c : Nat) (hv : (run ok schedule (FanOut.init seeds)).verdict = some (.announcedTo c)) :
    1 ≤ c ∧ c ≤ seeds.length := by
  have hinv := Inv_run ok seeds.length schedule _ (Inv_init ok seeds)
  obtain ⟨hlen, _⟩ := Inv_all_done ok _ _ hinv _ hv
  obtain ⟨_, _, hveq⟩ := hinv.verdict_eq _ hv
  have hle := hinv.succ_le
  have hcl := List.countP_le_length (fun g : Goroutine => g.phase.isDone)
    (l := (run ok schedule (FanOut.init seeds)).goroutines)
  split at hveq
  · simp at hveq
  · simp only [Verdict.announcedTo.injEq] at hveq
    omega

theorem run_waits_for_all (ok : Nat → Bool) (seeds : List String) (schedule : List Thread)
    (v : Verdict) (hv : (run ok schedule (FanOut.init seeds)).verdict = some v) :
    (run ok schedule (FanOut.init seeds)).goroutines.length = seeds.length
      ∧ (∀ g ∈ (run ok schedule (FanOut.init seeds)).goroutines, g.phase = .done)
      ∧ (run ok schedule (FanOut.init seeds)).calls.length = seeds.length := by
  have hinv := Inv_run ok seeds.length schedule _ (Inv_init ok seeds)
  obtain ⟨hlen, hdone⟩ := Inv_all_done ok _ _ hinv v hv
  refine ⟨hlen, ?_, ?_⟩
  · intro g hg
    have := hdone g hg
    cases hph : g.phase <;> simp [hph, Phase.isDone] at this ⊢
  · rw [hinv.calls_eq, ← hlen, List.countP_eq_length]
    intro g hg
    have := hdone g hg
    cases hph : g.phase <;> simp [hph, Phase.isDone, Phase.isStarted] at this ⊢

theorem run_one_call_each (ok : Nat → Bool) (seeds : List String)
    (schedule : List Thread) (v : Verdict)
    (hv : (run ok schedule (FanOut.init seeds)).verdict = some v) :
    ((run ok schedule (FanOut.init seeds)).goroutines.map fun g => g.x) = seeds
      ∧ ((run ok schedule (FanOut.init seeds)).calls.map Prod.fst).Perm
          (List.range seeds.length)
      ∧ ∀ (k : Nat) (a : String), (k, a) ∈ (run ok schedule (FanOut.init seeds)).calls →
          ∃ j : Nat, k ≤ j ∧ seeds[j]? = some a := by
  have hinv := Inv_run ok seeds.length schedule _ (Inv_init ok seeds)
  have hcalls := InvCalls_run ok seeds schedule _ (InvCalls_init seeds)
  obtain ⟨hlen, hdone⟩ := Inv_all_done ok _ _ hinv v hv
  obtain ⟨hp, _, _⟩ := hinv.verdict_eq v hv
  refine ⟨?_, ?_, hcalls.calls_arg⟩
  · have := hcalls.args
    rw [hp, List.append_nil] at this
    exact this
  · rw [List.perm_ext_iff_of_nodup hcalls.calls_nodup (List.nodup_range _)]
    intro k
    rw [hcalls.calls_mem k, List.mem_range]
    constructor
    · rintro ⟨g, hk, _⟩
      have := (List.getElem?_eq_some.mp hk).1
      omega
    · intro hk
      have hk' : k < (run ok schedule (FanOut.init seeds)).goroutines.length := by omega
      refine ⟨_, List.getElem?_eq_getElem hk', ?_⟩
      have := hdone _ (List.getElem_mem hk')
      cases hph : ((run ok schedule (FanOut.init seeds)).goroutines[k]).phase <;>
        simp [hph, Phase.isDone, Phase.isStarted] at this ⊢

/-! ## What every schedule of the fan-out guarantees -/

/-- Whatever the threads of the fan-out have done so far, they can go on to the end
of `main`: every schedule has a continuation after which `main` has ended. -/
theorem fanOut_can_end (ok : Nat → Bool) (seeds : String) (schedule : List Thread) :
    ∃ rest, (fanOut ok seeds (schedule ++ rest)).verdict ≠ none :=
  run_can_end ok (Split seeds ',') schedule

/-- At the end of `main`, under every schedule: the fatal branch
`No successful announces.` was taken if and only if no call of `Announce`
returned nil. -/
theorem fanOut_fatal_iff (ok : Nat → Bool) (seeds : String) (schedule : List Thread)
    (v : Verdict) (hv : (fanOut ok seeds schedule).verdict = some v) :
    v = .fatal "No successful announces."
      ↔ ∀ k, k < (Split seeds ',').length → ok k = false :=
  run_fatal_iff ok (Split seeds ',') schedule v hv

theorem fanOut_fatal_iff_witness :
    Verdict.fatal "No successful announces." = .fatal "No successful announces."
      ↔ ∀ k, k < (Split twoSeeds ',').length → (fun _ : Nat => false) k = false :=
  fanOut_fatal_iff (fun _ => false) twoSeeds loopFirst _ (by decide)

/-- At the end of `main`, under every schedule: a count that is reported is at least
1 and at most the number of seeds. -/
theorem fanOut_count_bounds (ok : Nat → Bool) (seeds : String) (schedule : List Thread)
    (c : Nat) (hv : (fanOut ok seeds schedule).verdict = some (.announcedTo c)) :
    1 ≤ c ∧ c ≤ (Split seeds ',').length :=
  run_count_bounds ok (Split seeds ',') schedule c hv

theorem fanOut_count_bounds_witness : 1 ≤ 1 ∧ 1 ≤ (Split twoSeeds ',').length :=
  fanOut_count_bounds (fun _ => true) twoSeeds lostUpdate 1 (by decide)

/-- At the end of `main`, under every schedule: every seed has its goroutine, every
goroutine is past `wg.Done()`, and `Announce` was called as many times as there are
seeds. -/
theorem fanOut_waits_for_all (ok : Nat → Bool) (seeds : String) (schedule : List Thread)
    (v : Verdict) (hv : (fanOut ok seeds schedule).verdict = some v) :
    (fanOut ok seeds schedule).goroutines.length = (Split seeds ',').length
      ∧ (∀ g ∈ (fanOut ok seeds schedule).goroutines, g.phase = .done)
      ∧ (fanOut ok seeds schedule).calls.length = (Split seeds ',').length :=
  run_waits_for_all ok (Split seeds ',') schedule v hv

theorem fanOut_waits_for_all_witness :
    (fanOut (fun _ => true) twoSeeds loopFirst).goroutines.length = (Split twoSeeds ',').length
      ∧ (∀ g ∈ (fanOut (fun _ => true) twoSeeds loopFirst).goroutines, g.phase = .done)
      ∧ (fanOut (fun _ => true) twoSeeds loopFirst).calls.length = (Split twoSeeds ',').length :=
  fanOut_waits_for_all (fun _ => true) twoSeeds loopFirst (.announcedTo 2) (by decide)

/-- At the end of `main`, under every schedule: the goroutines were started with
the seeds as their arguments, in the order of the list, and each of them has called
`Announce` exactly once. -/
theorem fanOut_one_call_each (ok : Nat → Bool) (seeds : String) (schedule : List Thread)
    (v : Verdict) (hv : (fanOut ok seeds schedule).verdict = some v) :
    ((fanOut ok seeds schedule).goroutines.map fun g => g.x) = Split seeds ','
      ∧ ((fanOut ok seeds schedule).calls.map Prod.fst).Perm
          (List.range (Split seeds ',').length) :=
  ⟨(run_one_call_each ok (Split seeds ',') schedule v hv).1,
   (run_one_call_each ok (Split seeds ',') schedule v hv).2.1⟩

theorem fanOut_one_call_each_witness :
    ((fanOut (fun _ => true) twoSeeds loopFirst).goroutines.map fun g => g.x) = Split twoSeeds ','
      ∧ ((fanOut (fun _ => true) twoSeeds loopFirst).calls.map Prod.fst).Perm
          (List.range (Split twoSeeds ',').length) :=
  fanOut_one_call_each (fun _ => true) twoSeeds loopFirst (.announcedTo 2) (by decide)

/-- At the end of `main`, under every schedule: the argument of the call of the k-th
goroutine is a seed of the list, at position k or later. -/
theorem fanOut_call_argument (ok : Nat → Bool) (seeds : String) (schedule : List Thread)
    (v : Verdict) (hv : (fanOut ok seeds schedule).verdict = some v)
    (k : Nat) (a : String) (hcall : (k, a) ∈ (fanOut ok seeds schedule).calls) :
    ∃ j : Nat, k ≤ j ∧ (Split seeds ',')[j]? = some a :=
  (run_one_call_each ok (Split seeds ',') schedule v hv).2.2 k a hcall

/-! ## The claims about the fan-out -/

/-- C2: with the two seeds of `twoSeeds` and both calls of `Announce` returning nil,
the schedule `lostUpdate` lets both goroutines read `succ = 0` before either writes:
`main` reports 1 successful announce where 2 calls returned nil. -/
theorem fanOut_reports_one_of_two :
    Split twoSeeds ',' = [defaultSeed, secondSeed]
      ∧ (fanOut (fun _ => true) twoSeeds lostUpdate).calls
          = [(0, defaultSeed), (1, secondSeed)]
      ∧ (fanOut (fun _ => true) twoSeeds lostUpdate).goroutines
          = [⟨defaultSeed, .done⟩, ⟨secondSeed, .done⟩]
      ∧ (fanOut (fun _ => true) twoSeeds lostUpdate).verdict = some (.announcedTo 1) := by
  decide

/-- C9: with the two seeds of `twoSeeds`, the schedule `loopFirst` runs both
iterations of the loop before a goroutine calls `Announce`: both goroutines, started
with the first and the second seed as arguments, announce to the second seed, the
value of `i`, and no call announces to the first. -/
theorem fanOut_announces_last_seed_twice :
    Split twoSeeds ',' = [defaultSeed, secondSeed]
      ∧ (fanOut (fun _ => true) twoSeeds loopFirst).goroutines
          = [⟨defaultSeed, .done⟩, ⟨secondSeed, .done⟩]
      ∧ (fanOut (fun _ => true) twoSeeds loopFirst).calls
          = [(0, secondSeed), (1, secondSeed)]
      ∧ (fanOut (fun _ => true) twoSeeds loopFirst).verdict = some (.announcedTo 2) := by
  decide

end TorDam
